import Mathlib

/-!
Shallow embedding of the `imagehash` library core (`imagehash/imagehash.py`):
the `ImageHash` container (grid of booleans with integer / hex-string views,
Hamming distance, equality, xor, hashing, and the `from_int` / `from_string`
deserializers) and the entry-validation structure of `dhash` /
`dhash_vertical`.  Grids are `List (List Bool)`; a 2-D numpy array of shape
(rows, cols) is a rectangular grid (every row has length cols).  Python
exceptions are modelled with `Except PyErr`.
-/

/-- Python exception values raised by the container operations. -/
inductive PyErr where
  | typeError : String → PyErr
  | valueError : String → PyErr
deriving DecidableEq, Repr

deriving instance DecidableEq for Except

/-- The `ImageHash` class: wraps the boolean grid stored in `self.hash`. -/
structure ImageHash where
  hash : List (List Bool)
deriving DecidableEq, Repr

namespace ImageHash

/-- numpy `.size` of a 2-D array: the total element count (rows times cols
for a rectangular grid), obtained here as the length of the flattening. -/
def nsize (g : List (List Bool)) : Nat := g.flatten.length

/-- Element access `g[y][x]` with numpy-style in-bounds reads (out-of-range
reads default to `false`; all uses in theorems are guarded by bounds). -/
def getEntry (g : List (List Bool)) (y x : Nat) : Bool :=
  (g.getD y []).getD x false

/-- Embedding of `ImageHash.__int__`:
sum of `1 << (len(self.hash) * y + x)` over `y, line` in
`enumerate(reversed(self.hash))` and `x, b` in `enumerate(line)` with `b`
set.  Note the bit stride is `len(self.hash)`, the number of rows. -/
def intOp (g : List (List Bool)) : Nat :=
  ((g.reverse.enumFrom 0).map (fun yl =>
    ((yl.2.enumFrom 0).map (fun xb =>
      if xb.2 then 2 ^ (g.length * yl.1 + xb.1) else 0)).sum)).sum

/-- Hex digit characters 0-9, A-F as produced by Python uppercase `X`
formatting. -/
def hexDigitChar (d : Nat) : Char :=
  if d < 10 then Char.ofNat (48 + d) else Char.ofNat (55 + d)

/-- Minimal uppercase hex digit list of `n`, most significant first;
fuel-based so that the kernel can evaluate it (`n` itself bounds the number
of division steps). -/
def hexAux : Nat → Nat → List Char → List Char
  | 0, _, acc => acc
  | fuel + 1, n, acc =>
    if n = 0 then acc else hexAux fuel (n / 16) (hexDigitChar (n % 16) :: acc)

/-- Uppercase hex representation of `n` with no leading zeros (`"0"` for 0),
as produced by Python `format(n, "X")`. -/
def hexChars (n : Nat) : List Char :=
  if n = 0 then ['0'] else hexAux n n []

/-- Embedding of the Python format spec used by `__str__`: uppercase hex of
`n`, left-padded with the zero character to a minimum width `w` (the result
is longer than `w` when `n` needs more digits). -/
def pyFormatHexPad (n w : Nat) : String :=
  String.mk (List.replicate (w - (hexChars n).length) '0' ++ hexChars n)

/-- Embedding of `ImageHash.__str__`: format `int(self)` as uppercase hex
padded to `self.hash.size // 4` digits (floor division). -/
def strOp (h : ImageHash) : String :=
  pyFormatHexPad (intOp h.hash) (nsize h.hash / 4)

/-- Message of the `TypeError` raised by `__sub__` on a `None` operand. -/
def msgSubNone : String := "Other hash must not be None."

/-- Message of the `TypeError` raised by `__sub__` on a size mismatch. -/
def msgSubShape : String := "ImageHashes must be of the same shape."

/-- `numpy.count_nonzero(a != b)` for two same-shape grids: the number of
positions where the entries differ. -/
def countNe (g1 g2 : List (List Bool)) : Nat :=
  ((g1.zip g2).map (fun rr =>
    ((rr.1.zip rr.2).filter (fun pq => pq.1 != pq.2)).length)).sum

/-- Embedding of `ImageHash.__sub__` (Hamming distance): `TypeError` on a
`None` operand, `TypeError` when the two arrays have different `.size`,
otherwise the count of differing positions. -/
def sub (a : ImageHash) (other : Option ImageHash) : Except PyErr Nat :=
  match other with
  | none => Except.error (PyErr.typeError msgSubNone)
  | some b =>
    if nsize a.hash ≠ nsize b.hash then
      Except.error (PyErr.typeError msgSubShape)
    else
      Except.ok (countNe a.hash b.hash)

/-- Embedding of `ImageHash.__eq__`: `False` on `None`, otherwise
`numpy.array_equal` of the two flattenings (same length and same entries,
that is, equality of the flattened lists). -/
def eqOp (a : ImageHash) (other : Option ImageHash) : Bool :=
  match other with
  | none => false
  | some b => decide (a.hash.flatten = b.hash.flatten)

/-- Embedding of `ImageHash.__ne__`: the source returns `False` on `None`
(same guard value as `__eq__`), otherwise the negation of
`numpy.array_equal` of the flattenings. -/
def neOp (a : ImageHash) (other : Option ImageHash) : Bool :=
  match other with
  | none => false
  | some b => !(decide (a.hash.flatten = b.hash.flatten))

/-- Embedding of `ImageHash.__hash__`: just `int(self)`. -/
def hashOp (h : ImageHash) : Nat := intOp h.hash

/-- numpy broadcasting of one axis: equal extents broadcast to themselves
and an extent of 1 stretches to the other extent; anything else fails. -/
def bcDim (a b : Nat) : Option Nat :=
  if a = b then some a else if a = 1 then some b else if b = 1 then some a else none

/-- Index into an operand axis of extent `dim` when producing broadcast
element `y`: a stretched axis (extent 1) always reads index 0. -/
def bcIndex (dim y : Nat) : Nat := if dim = 1 then 0 else y

/-- Row count of a grid (numpy shape component 0). -/
def rowsOf (g : List (List Bool)) : Nat := g.length

/-- Column count of a grid (numpy shape component 1, read off the first
row of the nested-list literal). -/
def colsOf (g : List (List Bool)) : Nat := (g.headD []).length

/-- Embedding of `ImageHash.__xor__`: `self.hash != other.hash`, numpy
element-wise inequality under broadcasting.  There is no shape or size
check in the source; the operation fails (`none`) only when the two shapes
cannot be broadcast together, and otherwise yields the broadcast grid. -/
def xorOp (a b : ImageHash) : Option (List (List Bool)) :=
  match bcDim (rowsOf a.hash) (rowsOf b.hash), bcDim (colsOf a.hash) (colsOf b.hash) with
  | some r, some c =>
    some ((List.range r).map (fun y => (List.range c).map (fun x =>
      getEntry a.hash (bcIndex (rowsOf a.hash) y) (bcIndex (colsOf a.hash) x)
        != getEntry b.hash (bcIndex (rowsOf b.hash) y) (bcIndex (colsOf b.hash) x))))
  | _, _ => none

/-- Python `int.bit_length`, fuel-based (`n` bounds the halving steps). -/
def bitLenAux : Nat → Nat → Nat
  | 0, _ => 0
  | fuel + 1, n => if n = 0 then 0 else bitLenAux fuel (n / 2) + 1

/-- Python `int.bit_length()` of a nonnegative integer. -/
def bitLen (n : Nat) : Nat := bitLenAux n n

/-- Message of the `ValueError` raised by `from_int` on overflow. -/
def msgFromInt : String := "More bits supplied than expected"

/-- Embedding of `ImageHash.from_int`: reject `i` needing more than
`size * size` bits, else build the grid whose row `y` tests the bit masks
`1 << k` for `k` in `[size * y, size * (y + 1))`. -/
def from_int (i : Nat) (size : Nat) : Except PyErr ImageHash :=
  if bitLen i > size * size then
    Except.error (PyErr.valueError msgFromInt)
  else
    Except.ok ⟨(List.range size).map (fun y =>
      (List.range size).map (fun x => i.testBit (size * y + x)))⟩

/-- Integer square root by exhaustive scan (kernel-evaluable); models the
`math.sqrt(x).is_integer()` test together with `intSqrt n * intSqrt n = n`. -/
def intSqrt (n : Nat) : Nat :=
  (List.range (n + 1)).foldl (fun acc k => if k * k ≤ n then k else acc) 0

/-- Numeric value of one hex digit character as parsed by Python
`int(s, 16)` (digits and both letter cases). -/
def hexCharVal (c : Char) : Nat :=
  if 48 ≤ c.toNat ∧ c.toNat ≤ 57 then c.toNat - 48
  else if 65 ≤ c.toNat ∧ c.toNat ≤ 70 then c.toNat - 55
  else if 97 ≤ c.toNat ∧ c.toNat ≤ 102 then c.toNat - 87
  else 0

/-- Python `int(s, 16)` on a hex-digit string. -/
def hexVal (s : String) : Nat :=
  s.data.foldl (fun acc c => 16 * acc + hexCharVal c) 0

/-- Message of the `ValueError` raised by `from_string`. -/
def msgFromString : String := "Non square number of bits in string"

/-- Embedding of `ImageHash.from_string`: the bit count `len(string) * 4`
must be a perfect square, and the value parses through `from_int` with the
square side as size. -/
def from_string (s : String) : Except PyErr ImageHash :=
  let bits := s.length * 4
  if intSqrt bits * intSqrt bits = bits then
    from_int (hexVal s) (intSqrt bits)
  else
    Except.error (PyErr.valueError msgFromString)

/-- Value of one grid row read as a little-endian bit string: entry `x`
contributes `2 ^ x`. -/
def rowVal : List Bool → Nat
  | [] => 0
  | b :: t => (if b then 1 else 0) + 2 * rowVal t

/-- Row value shifted to start at bit `k`: entry `x` contributes
`2 ^ (k + x)`. -/
def rowFrom : Nat → List Bool → Nat
  | _, [] => 0
  | k, b :: t => (if b then 2 ^ k else 0) + rowFrom (k + 1) t

/-- Value of a list of rows where the row at position `y` (counting from
the given start index) occupies bits starting at `stride * y`. -/
def gridFrom (stride : Nat) : Nat → List (List Bool) → Nat
  | _, [] => 0
  | y, row :: rest => rowFrom (stride * y) row + gridFrom stride (y + 1) rest

/-- Spec-side formulation for the hex view: the uppercase hexadecimal
encoding of `n` zero-padded to exactly `w` digits, most significant digit
first, digit `k` from the end being `n / 16 ^ k % 16`. -/
def hexFixedWidth : Nat → Nat → List Char
  | 0, _ => []
  | w + 1, n => hexFixedWidth w (n / 16) ++ [hexDigitChar (n % 16)]

/-- Spec-side `ceil(n / 4)`: the claimed hex-string width for an `n`-bit
hash. -/
def ceilDiv4 (n : Nat) : Nat := (n + 3) / 4

end ImageHash

/-- Message of the `ValueError` raised by `dhash` on a negative size. -/
def msgHashSize : String := "Hash size must be positive"

/-- Embedding of `dhash` (horizontal difference hash): validate
`hash_size < 0` at entry, then sample the image at width `hash_size + 1`
and height `hash_size` and compare each pixel with its left neighbour.
The external resize collaborator is the `sample` argument. -/
def dhash (hash_size : Int)
    (sample : Int → Int → Except PyErr (List (List Int))) :
    Except PyErr (List (List Bool)) :=
  if hash_size < 0 then Except.error (PyErr.valueError msgHashSize)
  else do
    let pixels ← sample (hash_size + 1) hash_size
    pure (pixels.map (fun row =>
      (row.tail.zip row).map (fun pq => decide (pq.2 < pq.1))))

/-- Embedding of `dhash_vertical`: the source has no `hash_size` check; it
samples the image at width `hash_size` and height `hash_size + 1` and
compares each pixel with the one above it. -/
def dhash_vertical (hash_size : Int)
    (sample : Int → Int → Except PyErr (List (List Int))) :
    Except PyErr (List (List Bool)) := do
  let pixels ← sample hash_size (hash_size + 1)
  pure ((pixels.tail.zip pixels).map (fun rp =>
    (rp.1.zip rp.2).map (fun pq => decide (pq.2 < pq.1))))

namespace ImageHash

theorem rowFrom_eq_pow_mul (row : List Bool) :
    ∀ k, rowFrom k row = 2 ^ k * rowVal row := by
  induction row with
  | nil => intro k; simp [rowFrom, rowVal]
  | cons b t ih =>
    intro k
    simp only [rowFrom, rowVal, ih (k + 1), pow_succ, Nat.mul_add]
    cases b <;> simp <;> ring

theorem enum_row_sum (K : Nat) (row : List Bool) :
    ∀ n, ((row.enumFrom n).map (fun xb =>
      if xb.2 then 2 ^ (K + xb.1) else 0)).sum = rowFrom (K + n) row := by
  induction row with
  | nil => intro n; simp [rowFrom]
  | cons b t ih =>
    intro n
    simp only [List.enumFrom_cons, List.map_cons, List.sum_cons, ih (n + 1), rowFrom]
    rw [Nat.add_assoc]

theorem enum_grid_sum (stride : Nat) (rows : List (List Bool)) :
    ∀ n, ((rows.enumFrom n).map (fun yl =>
      ((yl.2.enumFrom 0).map (fun xb =>
        if xb.2 then 2 ^ (stride * yl.1 + xb.1) else 0)).sum)).sum
      = gridFrom stride n rows := by
  induction rows with
  | nil => intro n; simp [gridFrom]
  | cons r rest ih =>
    intro n
    simp only [List.enumFrom_cons, List.map_cons, List.sum_cons, ih (n + 1), gridFrom]
    rw [enum_row_sum (stride * n) r 0, Nat.add_zero]

theorem intOp_eq_gridFrom (g : List (List Bool)) :
    intOp g = gridFrom g.length 0 g.reverse := by
  unfold intOp
  exact enum_grid_sum g.length g.reverse 0

theorem gridFrom_shift (stride : Nat) (rows : List (List Bool)) :
    ∀ y, gridFrom stride (y + 1) rows = 2 ^ stride * gridFrom stride y rows := by
  induction rows with
  | nil => intro y; simp [gridFrom]
  | cons r rest ih =>
    intro y
    simp only [gridFrom, ih (y + 1), Nat.mul_add]
    congr 1
    rw [rowFrom_eq_pow_mul, rowFrom_eq_pow_mul, ← Nat.mul_assoc, ← pow_add]
    congr 2
    ring

theorem gridFrom_cons (stride : Nat) (r : List Bool) (rest : List (List Bool)) :
    gridFrom stride 0 (r :: rest)
      = 2 ^ stride * gridFrom stride 0 rest + rowVal r := by
  show rowFrom (stride * 0) r + gridFrom stride 1 rest = _
  rw [Nat.mul_zero, rowFrom_eq_pow_mul, pow_zero, Nat.one_mul]
  rw [show (1 : Nat) = 0 + 1 from rfl, gridFrom_shift]
  exact Nat.add_comm _ _

theorem rowVal_lt (row : List Bool) : rowVal row < 2 ^ row.length := by
  induction row with
  | nil => simp [rowVal]
  | cons b t ih =>
    simp only [rowVal, List.length_cons, pow_succ]
    cases b <;> simp <;> omega

theorem gridFrom_lt (stride : Nat) (rows : List (List Bool))
    (hlt : ∀ r ∈ rows, rowVal r < 2 ^ stride) :
    gridFrom stride 0 rows < 2 ^ (stride * rows.length) := by
  induction rows with
  | nil => simp [gridFrom]
  | cons r rest ih =>
    rw [gridFrom_cons]
    have h1 : rowVal r < 2 ^ stride := hlt r (List.mem_cons_self r rest)
    have h2 : gridFrom stride 0 rest < 2 ^ (stride * rest.length) :=
      ih (fun q hq => hlt q (List.mem_cons_of_mem r hq))
    have h3 : 2 ^ stride * gridFrom stride 0 rest + rowVal r
        < 2 ^ stride * (gridFrom stride 0 rest + 1) := by
      rw [Nat.mul_add, Nat.mul_one]
      omega
    simp only [List.length_cons]
    calc 2 ^ stride * gridFrom stride 0 rest + rowVal r
        < 2 ^ stride * (gridFrom stride 0 rest + 1) := h3
      _ ≤ 2 ^ stride * 2 ^ (stride * rest.length) :=
          Nat.mul_le_mul_left _ (Nat.succ_le_of_lt h2)
      _ = 2 ^ (stride * (rest.length + 1)) := by rw [← pow_add]; ring_nf

theorem rowVal_testBit (row : List Bool) :
    ∀ x, (rowVal row).testBit x = row.getD x false := by
  induction row with
  | nil => intro x; simp [rowVal]
  | cons b t ih =>
    intro x
    cases x with
    | zero =>
      simp only [rowVal, Nat.testBit_zero, List.getD_cons_zero]
      cases b <;> simp
    | succ x =>
      simp only [rowVal, Nat.testBit_succ, List.getD_cons_succ]
      rw [show ((if b then 1 else 0) + 2 * rowVal t) / 2 = rowVal t by
        cases b <;> simp <;> omega]
      exact ih x

theorem gridFrom_testBit (stride : Nat) (rows : List (List Bool))
    (hlt : ∀ r ∈ rows, rowVal r < 2 ^ stride) (k x : Nat) (hx : x < stride) :
    (gridFrom stride 0 rows).testBit (stride * k + x)
      = (rowVal (rows.getD k [])).testBit x := by
  induction rows generalizing k with
  | nil => simp [gridFrom, rowVal]
  | cons r rest ih =>
    rw [gridFrom_cons]
    have hr : rowVal r < 2 ^ stride := hlt r (List.mem_cons_self r rest)
    rw [Nat.testBit_mul_pow_two_add (gridFrom stride 0 rest) hr]
    cases k with
    | zero =>
      rw [if_pos (by simpa using hx)]
      simp
    | succ k =>
      have hge : ¬ stride * (k + 1) + x < stride := by
        have : stride ≤ stride * (k + 1) := Nat.le_mul_of_pos_right _ (Nat.succ_pos k)
        omega
      rw [if_neg hge]
      have harg : stride * (k + 1) + x - stride = stride * k + x := by
        have : stride ≤ stride * (k + 1) := Nat.le_mul_of_pos_right _ (Nat.succ_pos k)
        rw [Nat.mul_succ]
        omega
      rw [harg, ih (fun q hq => hlt q (List.mem_cons_of_mem r hq)) k]
      simp

theorem flatten_inj_of_rect (c : Nat) :
    ∀ g1 g2 : List (List Bool), (∀ r ∈ g1, r.length = c) →
      (∀ r ∈ g2, r.length = c) → g1.length = g2.length →
      g1.flatten = g2.flatten → g1 = g2 := by
  intro g1
  induction g1 with
  | nil =>
    intro g2 _ _ hlen _
    cases g2 with
    | nil => rfl
    | cons r2 t2 => simp at hlen
  | cons r t ih =>
    intro g2 h1 h2 hlen hflat
    cases g2 with
    | nil => simp at hlen
    | cons r2 t2 =>
      simp only [List.flatten_cons] at hflat
      have hr : r.length = r2.length := by
        rw [h1 r (List.mem_cons_self r t), h2 r2 (List.mem_cons_self r2 t2)]
      obtain ⟨hre, hte⟩ := List.append_inj hflat hr
      have htl : t.length = t2.length := by
        simpa using hlen
      have := ih t2 (fun q hq => h1 q (List.mem_cons_of_mem r hq))
        (fun q hq => h2 q (List.mem_cons_of_mem r2 hq)) htl hte
      rw [hre, this]

theorem hexAux_zero (fuel : Nat) (acc : List Char) : hexAux fuel 0 acc = acc := by
  cases fuel <;> simp [hexAux]

theorem hexAux_acc (fuel : Nat) :
    ∀ n acc, hexAux fuel n acc = hexAux fuel n [] ++ acc := by
  induction fuel with
  | zero => intro n acc; simp [hexAux]
  | succ f ih =>
    intro n acc
    by_cases hn : n = 0
    · simp [hexAux, hn]
    · simp only [hexAux, if_neg hn]
      rw [ih (n / 16) (hexDigitChar (n % 16) :: acc), ih (n / 16) [hexDigitChar (n % 16)]]
      simp

theorem hexAux_fuel (n : Nat) :
    ∀ f g, n ≤ f → n ≤ g → hexAux f n [] = hexAux g n [] := by
  induction n using Nat.strong_induction_on with
  | _ n ih =>
    intro f g hf hg
    by_cases hn : n = 0
    · subst hn
      rw [hexAux_zero, hexAux_zero]
    · obtain ⟨f0, rfl⟩ : ∃ f0, f = f0 + 1 := ⟨f - 1, by omega⟩
      obtain ⟨g0, rfl⟩ : ∃ g0, g = g0 + 1 := ⟨g - 1, by omega⟩
      simp only [hexAux, if_neg hn]
      have hdiv : n / 16 < n := Nat.div_lt_self (by omega) (by omega)
      rw [hexAux_acc f0, hexAux_acc g0,
        ih (n / 16) hdiv f0 g0 (by omega) (by omega)]

theorem hexChars_small (n : Nat) (h0 : 0 < n) (h16 : n < 16) :
    hexChars n = [hexDigitChar n] := by
  obtain ⟨m, rfl⟩ : ∃ m, n = m + 1 := ⟨n - 1, by omega⟩
  rw [hexChars, if_neg (by omega)]
  show hexAux (m + 1) (m + 1) [] = _
  rw [show hexAux (m + 1) (m + 1) []
      = hexAux m ((m + 1) / 16) (hexDigitChar ((m + 1) % 16) :: []) by
    simp [hexAux]]
  rw [Nat.div_eq_of_lt h16, hexAux_zero, Nat.mod_eq_of_lt h16]

theorem hexChars_step (n : Nat) (h : 16 ≤ n) :
    hexChars n = hexChars (n / 16) ++ [hexDigitChar (n % 16)] := by
  obtain ⟨m, rfl⟩ : ∃ m, n = m + 1 := ⟨n - 1, by omega⟩
  rw [hexChars, if_neg (by omega)]
  show hexAux (m + 1) (m + 1) [] = _
  rw [show hexAux (m + 1) (m + 1) []
      = hexAux m ((m + 1) / 16) (hexDigitChar ((m + 1) % 16) :: []) by
    simp [hexAux]]
  rw [hexAux_acc m]
  have hdle : (m + 1) / 16 ≤ m := by
    have : (m + 1) / 16 < m + 1 := Nat.div_lt_self (by omega) (by omega)
    omega
  rw [hexAux_fuel ((m + 1) / 16) m ((m + 1) / 16) hdle (Nat.le_refl _)]
  have hdpos : 0 < (m + 1) / 16 := Nat.div_pos h (by omega)
  rw [hexChars, if_neg (by omega)]

theorem hexDigitChar_zero : hexDigitChar 0 = '0' := by decide

theorem hexFixedWidth_zero (w : Nat) :
    hexFixedWidth w 0 = List.replicate w '0' := by
  induction w with
  | zero => rfl
  | succ w ih =>
    show hexFixedWidth w (0 / 16) ++ [hexDigitChar (0 % 16)]
      = List.replicate (w + 1) '0'
    rw [Nat.zero_div, Nat.zero_mod, ih, hexDigitChar_zero, List.replicate_succ']

theorem hexFixedWidth_pos (w : Nat) :
    ∀ n, 0 < n → n < 16 ^ w →
      hexFixedWidth w n
        = List.replicate (w - (hexChars n).length) '0' ++ hexChars n := by
  induction w with
  | zero =>
    intro n h0 hlt
    simp at hlt
    omega
  | succ w ih =>
    intro n h0 hlt
    show hexFixedWidth w (n / 16) ++ [hexDigitChar (n % 16)] = _
    by_cases h16 : n < 16
    · rw [Nat.div_eq_of_lt h16, Nat.mod_eq_of_lt h16, hexFixedWidth_zero,
        hexChars_small n h0 h16]
      simp [List.replicate_succ']
    · have hdpos : 0 < n / 16 := Nat.div_pos (by omega) (by omega)
      have hdlt : n / 16 < 16 ^ w := by
        rw [Nat.div_lt_iff_lt_mul (by omega)]
        calc n < 16 ^ (w + 1) := hlt
          _ = 16 ^ w * 16 := by rw [pow_succ]
      rw [ih (n / 16) hdpos hdlt, hexChars_step n (by omega)]
      rw [List.length_append, List.length_singleton]
      rw [show w + 1 - ((hexChars (n / 16)).length + 1)
          = w - (hexChars (n / 16)).length by omega]
      rw [List.append_assoc]

theorem pad_hex_eq_fixed (w n : Nat) (hw : 1 ≤ w) (hn : n < 16 ^ w) :
    List.replicate (w - (hexChars n).length) '0' ++ hexChars n
      = hexFixedWidth w n := by
  by_cases h0 : n = 0
  · subst h0
    rw [hexFixedWidth_zero]
    rw [show hexChars 0 = ['0'] from rfl]
    rw [show ([('0' : Char)] : List Char) = List.replicate 1 '0' from rfl]
    rw [← List.replicate_add]
    congr 1
    simp at *
    omega
  · exact (hexFixedWidth_pos w n (by omega) hn).symm

end ImageHash

/-- C1 (code evaluated at the failing input): on the test grid
g = [[T,F],[T,T]], `__int__` yields 7 (the reversed-row iteration), and
`from_int(7, 2)` rebuilds the vertically flipped grid [[T,T],[T,F]], not g:
the integer round-trip `from_int(int(h), size) == h` fails, although the
repository's own tests (`int(h1) == 13` and `from_int(13, 2) == h1`)
compose to exactly this round-trip at the same input. -/
theorem from_int_int_roundtrip_fails :
    ImageHash.from_int (ImageHash.intOp [[true, false], [true, true]]) 2
      = Except.ok ⟨[[true, true], [true, false]]⟩
    ∧ ImageHash.from_int (ImageHash.intOp [[true, false], [true, true]]) 2
      ≠ Except.ok ⟨[[true, false], [true, true]]⟩ := by
  constructor
  · decide
  · decide

/-- C2 (code evaluated at the failing input): str(h) for h built from
[[T,F],[T,T]] is "7" (the tests assert "D"), and parsing "7" back through
`from_string` yields the vertically flipped grid, so the textual round-trip
`from_string(str(h)) == h` fails on the code. -/
theorem from_string_str_roundtrip_fails :
    ImageHash.from_string (ImageHash.strOp ⟨[[true, false], [true, true]]⟩)
      = Except.ok ⟨[[true, true], [true, false]]⟩
    ∧ ImageHash.from_string (ImageHash.strOp ⟨[[true, false], [true, true]]⟩)
      ≠ Except.ok ⟨[[true, false], [true, true]]⟩ := by
  constructor
  · decide
  · decide

/-- C3 (code evaluated at the failing inputs): `__int__` computes 7 (0x7)
on [[T,F],[T,T]] and 14 (0xE) on [[T,T],[F,T]], not the values 13 (0xD)
and 11 (0xB) asserted by the claim and by test_container.test_int. -/
theorem int_test_vectors_diverge :
    ImageHash.intOp [[true, false], [true, true]] = 7
    ∧ ImageHash.intOp [[true, true], [false, true]] = 14
    ∧ ImageHash.intOp [[true, false], [true, true]] ≠ 13
    ∧ ImageHash.intOp [[true, true], [false, true]] ≠ 11 := by
  refine ⟨by decide, by decide, by decide, by decide⟩

/-- C4 counterexample: on the non-square 2-row, 1-column grid [[T],[T]]
the claimed layout fails: the integer is 5, which does not fit in
rows*cols = 2 bits, and the claimed bit (rows-1-0)*cols + 0 = 1 is clear
even though g[0][0] is true (the code strides by the row count, not cols). -/
theorem int_bit_layout_nonsquare_cex :
    2 ^ (2 * 1) ≤ ImageHash.intOp [[true], [true]]
    ∧ (ImageHash.intOp [[true], [true]]).testBit ((2 - 1 - 0) * 1 + 0) = false
    ∧ ImageHash.getEntry [[true], [true]] 0 0 = true := by
  refine ⟨by decide, by decide, by decide⟩

/-- C4 (amended to square grids): for a square grid g of side
len = g.length, bit (len-1-y)*len + x of `__int__`'s value is set iff
g[y][x] is true, and the value fits in len*len bits.  (On non-square grids
the code uses the row count as the stride, so the claimed cols-based
formula and the rows*cols bit bound both fail.) -/
theorem int_bit_layout_square (g : List (List Bool))
    (hsq : ∀ row ∈ g, row.length = g.length) :
    (∀ y x, y < g.length → x < g.length →
      (ImageHash.intOp g).testBit ((g.length - 1 - y) * g.length + x)
        = ImageHash.getEntry g y x)
    ∧ ImageHash.intOp g < 2 ^ (g.length * g.length) := by
  have hlt : ∀ r ∈ g.reverse, ImageHash.rowVal r < 2 ^ g.length := by
    intro r hr
    rw [List.mem_reverse] at hr
    have h := ImageHash.rowVal_lt r
    rwa [hsq r hr] at h
  constructor
  · intro y x hy hx
    rw [ImageHash.intOp_eq_gridFrom]
    rw [show (g.length - 1 - y) * g.length = g.length * (g.length - 1 - y) from
      Nat.mul_comm _ _]
    rw [ImageHash.gridFrom_testBit g.length g.reverse hlt (g.length - 1 - y) x hx]
    have hk : g.length - 1 - y < g.reverse.length := by
      rw [List.length_reverse]
      omega
    have hrev : g.reverse.getD (g.length - 1 - y) [] = g.getD y [] := by
      rw [List.getD_eq_getElem?_getD, List.getD_eq_getElem?_getD]
      rw [List.getElem?_reverse (by simpa using hk)]
      rw [show g.length - 1 - (g.length - 1 - y) = y by omega]
    rw [hrev, ImageHash.rowVal_testBit]
    rfl
  · rw [ImageHash.intOp_eq_gridFrom]
    have h := ImageHash.gridFrom_lt g.length g.reverse hlt
    rwa [List.length_reverse] at h

/-- C4 witness: the amended theorem applied to the square test grid
[[T,F],[T,T]]. -/
theorem int_bit_layout_square_witness :
    (∀ row ∈ [[true, false], [true, true]],
      List.length row = List.length [[true, false], [true, true]])
    ∧ ((∀ y x, y < List.length [[true, false], [true, true]]
          → x < List.length [[true, false], [true, true]]
          → (ImageHash.intOp [[true, false], [true, true]]).testBit
              ((List.length [[true, false], [true, true]] - 1 - y)
                * List.length [[true, false], [true, true]] + x)
            = ImageHash.getEntry [[true, false], [true, true]] y x)
        ∧ ImageHash.intOp [[true, false], [true, true]]
          < 2 ^ (List.length [[true, false], [true, true]]
              * List.length [[true, false], [true, true]])) :=
  ⟨by decide, int_bit_layout_square [[true, false], [true, true]] (by decide)⟩

/-- C5 counterexample: for hashes over [[T,F],[T,T]] (4 bits, shape 2x2)
and [[T]] (1 bit, shape 1x1) the bit counts differ, yet xor does not fail:
numpy broadcasts the shapes and returns the element-wise inequality grid. -/
theorem sub_xor_shape_mismatch_cex :
    ImageHash.nsize [[true, false], [true, true]] ≠ ImageHash.nsize [[true]]
    ∧ ImageHash.xorOp ⟨[[true, false], [true, true]]⟩ ⟨[[true]]⟩
      = some [[false, true], [false, false]] := by
  refine ⟨by decide, by decide⟩

/-- C5 (amended): for hashes of different total bit counts, Hamming
distance (`__sub__`) always fails with the shape-mismatch TypeError, but
xor performs no shape check: it fails exactly when the two shapes are not
numpy-broadcast-compatible, and otherwise returns the broadcast grid. -/
theorem sub_fails_xor_unchecked (a b : ImageHash)
    (hsz : ImageHash.nsize a.hash ≠ ImageHash.nsize b.hash) :
    ImageHash.sub a (some b)
      = Except.error (PyErr.typeError ImageHash.msgSubShape)
    ∧ (ImageHash.xorOp a b = none ↔
        (ImageHash.bcDim (ImageHash.rowsOf a.hash) (ImageHash.rowsOf b.hash) = none
          ∨ ImageHash.bcDim (ImageHash.colsOf a.hash) (ImageHash.colsOf b.hash) = none)) := by
  constructor
  · simp [ImageHash.sub, hsz]
  · unfold ImageHash.xorOp
    rcases h1 : ImageHash.bcDim (ImageHash.rowsOf a.hash) (ImageHash.rowsOf b.hash) with _ | r
    · simp
    · rcases h2 : ImageHash.bcDim (ImageHash.colsOf a.hash) (ImageHash.colsOf b.hash) with _ | c
      · simp
      · simp

/-- C5 witness: the amended theorem applied to hashes of 4 and 2 bits. -/
theorem sub_fails_xor_unchecked_witness :
    ImageHash.nsize (ImageHash.mk [[true, false], [true, true]]).hash
      ≠ ImageHash.nsize (ImageHash.mk [[true, true]]).hash
    ∧ (ImageHash.sub ⟨[[true, false], [true, true]]⟩ (some ⟨[[true, true]]⟩)
        = Except.error (PyErr.typeError ImageHash.msgSubShape)
      ∧ (ImageHash.xorOp ⟨[[true, false], [true, true]]⟩ ⟨[[true, true]]⟩ = none ↔
          (ImageHash.bcDim (ImageHash.rowsOf (ImageHash.mk [[true, false], [true, true]]).hash)
              (ImageHash.rowsOf (ImageHash.mk [[true, true]]).hash) = none
            ∨ ImageHash.bcDim (ImageHash.colsOf (ImageHash.mk [[true, false], [true, true]]).hash)
              (ImageHash.colsOf (ImageHash.mk [[true, true]]).hash) = none))) :=
  ⟨by decide, sub_fails_xor_unchecked ⟨[[true, false], [true, true]]⟩ ⟨[[true, true]]⟩ (by decide)⟩

/-- C6 (code evaluated at the failing input): equality with None returns
False as claimed, but `__ne__` also returns False on a None operand, so
`h != None` reports equal where the claim (and complementarity with
`__eq__`) requires True. -/
theorem ne_none_returns_false :
    ImageHash.eqOp ⟨[[true, false], [true, true]]⟩ none = false
    ∧ ImageHash.neOp ⟨[[true, false], [true, true]]⟩ none = false := by
  refine ⟨rfl, rfl⟩

/-- C7 counterexample: the 2x2 grid [[T,F],[T,T]] and the 1x4 grid
[[T,F,T,T]] have equal flattenings, so `__eq__` reports them equal, yet
their `__hash__` values (7 and 13) differ: hashing is not consistent with
equality across shapes. -/
theorem hash_eq_consistency_cex :
    ImageHash.eqOp ⟨[[true, false], [true, true]]⟩ (some ⟨[[true, false, true, true]]⟩) = true
    ∧ ImageHash.hashOp ⟨[[true, false], [true, true]]⟩
      ≠ ImageHash.hashOp ⟨[[true, false, true, true]]⟩ := by
  refine ⟨by decide, by decide⟩

/-- C7 (amended to equal-shape operands): `__hash__` equals `__int__`, and
for two rectangular hashes of the same shape (same row count, all rows of
the common length c), equality implies equal hash values.  (Across
different shapes with equal flattenings, `__eq__` holds while the hashes
differ.) -/
theorem hash_eq_consistent_same_shape (a b : ImageHash) (c : Nat)
    (ha : ∀ r ∈ a.hash, r.length = c) (hb : ∀ r ∈ b.hash, r.length = c)
    (hlen : a.hash.length = b.hash.length)
    (heq : ImageHash.eqOp a (some b) = true) :
    ImageHash.hashOp a = ImageHash.intOp a.hash
    ∧ ImageHash.hashOp a = ImageHash.hashOp b := by
  have hflat : a.hash.flatten = b.hash.flatten := by
    simpa [ImageHash.eqOp] using heq
  have hgrids : a.hash = b.hash :=
    ImageHash.flatten_inj_of_rect c a.hash b.hash ha hb hlen hflat
  exact ⟨rfl, by rw [ImageHash.hashOp, ImageHash.hashOp, hgrids]⟩

/-- C7 witness: the amended theorem applied to two equal 1x1 hashes. -/
theorem hash_eq_consistent_same_shape_witness :
    (∀ r ∈ (ImageHash.mk [[true]]).hash, List.length r = 1)
    ∧ (∀ r ∈ (ImageHash.mk [[true]]).hash, List.length r = 1)
    ∧ (ImageHash.mk [[true]]).hash.length = (ImageHash.mk [[true]]).hash.length
    ∧ ImageHash.eqOp ⟨[[true]]⟩ (some ⟨[[true]]⟩) = true
    ∧ (ImageHash.hashOp ⟨[[true]]⟩ = ImageHash.intOp (ImageHash.mk [[true]]).hash
      ∧ ImageHash.hashOp ⟨[[true]]⟩ = ImageHash.hashOp ⟨[[true]]⟩) :=
  ⟨by decide, by decide, rfl, by decide,
    hash_eq_consistent_same_shape ⟨[[true]]⟩ ⟨[[true]]⟩ 1
      (by decide) (by decide) rfl (by decide)⟩

/-- C8 counterexample: for the 3x3 all-false grid (9 bits), str pads to
floor(9/4) = 2 digits and yields "00", not the claimed
ceil(9/4) = 3 digits "000". -/
theorem str_ceil_padding_cex :
    ImageHash.strOp ⟨[[false, false, false], [false, false, false], [false, false, false]]⟩
      ≠ String.mk (ImageHash.hexFixedWidth
          (ImageHash.ceilDiv4 (ImageHash.nsize
            [[false, false, false], [false, false, false], [false, false, false]]))
          (ImageHash.intOp
            [[false, false, false], [false, false, false], [false, false, false]])) := by
  decide

/-- C8 (amended): str(h) is the uppercase hex encoding of int(h)
zero-padded to exactly floor(rows*cols/4) hex digits, provided that width
is at least 1 and int(h) fits in it; the source pads with floor division
(`self.hash.size // 4`), not ceil, and the string grows longer when the
value needs more digits. -/
theorem str_floor_padding (h : ImageHash)
    (hw : 1 ≤ ImageHash.nsize h.hash / 4)
    (hfit : ImageHash.intOp h.hash < 16 ^ (ImageHash.nsize h.hash / 4)) :
    ImageHash.strOp h
      = String.mk (ImageHash.hexFixedWidth (ImageHash.nsize h.hash / 4)
          (ImageHash.intOp h.hash)) := by
  unfold ImageHash.strOp ImageHash.pyFormatHexPad
  exact congrArg String.mk
    (ImageHash.pad_hex_eq_fixed (ImageHash.nsize h.hash / 4) (ImageHash.intOp h.hash) hw hfit)

/-- C8 witness: the amended theorem applied to the 2x2 test grid
(4 bits, one hex digit, value 7). -/
theorem str_floor_padding_witness :
    1 ≤ ImageHash.nsize (ImageHash.mk [[true, false], [true, true]]).hash / 4
    ∧ ImageHash.intOp (ImageHash.mk [[true, false], [true, true]]).hash
      < 16 ^ (ImageHash.nsize (ImageHash.mk [[true, false], [true, true]]).hash / 4)
    ∧ ImageHash.strOp ⟨[[true, false], [true, true]]⟩
      = String.mk (ImageHash.hexFixedWidth
          (ImageHash.nsize (ImageHash.mk [[true, false], [true, true]]).hash / 4)
          (ImageHash.intOp (ImageHash.mk [[true, false], [true, true]]).hash)) :=
  ⟨by decide, by decide,
    str_floor_padding ⟨[[true, false], [true, true]]⟩ (by decide) (by decide)⟩

/-- C9 (code evaluated at the failing input): with hash_size = -1,
`dhash_vertical` performs no parameter check and proceeds straight to the
sampling collaborator (here one returning an empty grid), returning a
result instead of the claimed entry ValueError; `dhash` with the same
input raises the ValueError at entry. -/
theorem dhash_vertical_no_entry_check :
    dhash_vertical (-1) (fun _ _ => Except.ok []) = Except.ok []
    ∧ dhash (-1) (fun _ _ => Except.ok [])
      = Except.error (PyErr.valueError msgHashSize) := by
  refine ⟨rfl, by decide⟩

/-- C10: the Hamming-distance operation with a None operand raises
TypeError with the message of the source, for every hash. -/
theorem sub_none_raises_typeerror (h : ImageHash) :
    ImageHash.sub h none = Except.error (PyErr.typeError ImageHash.msgSubNone) := rfl

/-- C10 witness: the theorem applied at a concrete hash. -/
theorem sub_none_raises_typeerror_witness :
    ImageHash.sub ⟨[[true, false], [true, true]]⟩ none
      = Except.error (PyErr.typeError ImageHash.msgSubNone) :=
  sub_none_raises_typeerror ⟨[[true, false], [true, true]]⟩
